import Mathlib

/-!
Verification of the `transformable` binary transform core against its
specification.  The Rust sources are shallowly embedded: buffers are
`List Nat` of byte values, machine integers are `Nat`/`Int` with explicit
`% 2 ^ w` where overflow matters, fallible operations return `Except`, and
operations that can panic in Rust (out-of-bounds indexing or slicing)
return an outcome type with an explicit `panic` constructor.
Mutating encoders `fn encode(&self, dst: &mut [u8]) -> Result<usize, E>`
become functions `value → dst → (Except E usize) × dst`: the second
component is the final state of the destination buffer, returned unchanged
on the error paths (mirroring the source, where every `return Err(..)`
happens before the first write).
-/

namespace Transformable

/-- Equality of `Except` values is decidable when it is on both sides. -/
instance {ε α : Type} [DecidableEq ε] [DecidableEq α] :
    DecidableEq (Except ε α)
  | .ok a, .ok b =>
    match decEq a b with
    | .isTrue h => .isTrue (by rw [h])
    | .isFalse h => .isFalse (by intro hh; cases hh; exact h rfl)
  | .ok _, .error _ => .isFalse (by intro h; cases h)
  | .error _, .ok _ => .isFalse (by intro h; cases h)
  | .error a, .error b =>
    match decEq a b with
    | .isTrue h => .isTrue (by rw [h])
    | .isFalse h => .isFalse (by intro hh; cases hh; exact h rfl)

/-- Outcome of a Rust computation that can panic: `ok`, a returned error,
or a panic (out-of-bounds index / slice). -/
inductive RustOutcome (ε α : Type) : Type where
  | ok (a : α)
  | err (e : ε)
  | panic
deriving DecidableEq, Repr

/-- `MESSAGE_SIZE_LEN` from `src/lib.rs`: size of the 4-byte length header. -/
def MESSAGE_SIZE_LEN : Nat := 4

/-- `MAX_INLINED_BYTES` from `src/lib.rs`: the 256-byte inline threshold. -/
def MAX_INLINED_BYTES : Nat := 256

/-- `NetworkEndian::write_u32` of `n as u32`: the four big-endian bytes of
`n % 2 ^ 32`. -/
def u32ToBe (n : Nat) : List Nat :=
  [n >>> 24 % 256, n >>> 16 % 256, n >>> 8 % 256, n % 256]

/-- `u64::to_be_bytes` of `n` (for `n < 2 ^ 64`): eight big-endian bytes. -/
def u64ToBe (n : Nat) : List Nat :=
  [n >>> 56 % 256, n >>> 48 % 256, n >>> 40 % 256, n >>> 32 % 256,
   n >>> 24 % 256, n >>> 16 % 256, n >>> 8 % 256, n % 256]

/-- `u16::to_be_bytes` of `n` (for `n < 2 ^ 16`): two big-endian bytes. -/
def u16ToBe (n : Nat) : List Nat :=
  [n >>> 8 % 256, n % 256]

/-- `NetworkEndian::read_u32` / `u32::from_be_bytes`: read the first four
bytes of `l` as a big-endian 32-bit value. -/
def readU32 (l : List Nat) : Nat :=
  l.getD 0 0 * 2 ^ 24 + l.getD 1 0 * 2 ^ 16 + l.getD 2 0 * 2 ^ 8 + l.getD 3 0

/-- `u64::from_be_bytes`: read the first eight bytes of `l` as a big-endian
64-bit value. -/
def readU64 (l : List Nat) : Nat :=
  l.getD 0 0 * 2 ^ 56 + l.getD 1 0 * 2 ^ 48 + l.getD 2 0 * 2 ^ 40 +
    l.getD 3 0 * 2 ^ 32 + l.getD 4 0 * 2 ^ 24 + l.getD 5 0 * 2 ^ 16 +
    l.getD 6 0 * 2 ^ 8 + l.getD 7 0

/-- `dst[i..i + src.len()].copy_from_slice(src)`: overwrite `dst` at offset
`i` with `src` (callers establish `i + src.length ≤ dst.length`). -/
def writeSlice (dst : List Nat) (i : Nat) (src : List Nat) : List Nat :=
  dst.take i ++ src ++ dst.drop (i + src.length)

/-! ### Varint codec, `src/utils.rs` -/

/-- `EncodeVarintError` from `src/utils.rs`. -/
inductive EncodeVarintError : Type where
  | BufferTooSmall
deriving DecidableEq, Repr

/-- `DecodeVarintError` from `src/utils.rs`. -/
inductive DecodeVarintError : Type where
  | Overflow
  | NotEnoughBytes
deriving DecidableEq, Repr

/-- `u64::leading_zeros` for a nonzero argument below `2 ^ 64`:
`64 - bitlength` where the bit length of `n ≥ 1` is `Nat.log2 n + 1`. -/
def leadingZeros64 (n : Nat) : Nat := 64 - (Nat.log2 n + 1)

/-- `encoded_len_varint` from `src/utils.rs`:
`((((value | 1).leading_zeros() ^ 63) * 9 + 73) / 64) as usize`. -/
def encoded_len_varint (value : Nat) : Nat :=
  ((leadingZeros64 (value ||| 1) ^^^ 63) * 9 + 73) / 64

/-- The loop of `encode_varint` from `src/utils.rs`, entered with cursor `i`:
while `x >= 0x80` write `(x as u8) | 0x80` at `buf[i]` (error if `i` is past
the end) and shift; afterwards write the final byte `x as u8` at `buf[i]`,
which panics when `i` is out of bounds (the source performs this last
write without a bounds check). -/
def encode_varint_go (x i : Nat) (buf : List Nat) :
    RustOutcome EncodeVarintError Nat × List Nat :=
  if x ≥ 0x80 then
    if i ≥ buf.length then (.err .BufferTooSmall, buf)
    else encode_varint_go (x >>> 7) (i + 1) (buf.set i (x % 256 ||| 0x80))
  else
    if i < buf.length then (.ok (i + 1), buf.set i (x % 256))
    else (.panic, buf)
termination_by x
decreasing_by
  exact Nat.shiftRight_eq_div_pow x 7 ▸ Nat.div_lt_self (by omega) (by norm_num)

/-- `encode_varint` from `src/utils.rs`. -/
def encode_varint (x : Nat) (buf : List Nat) :
    RustOutcome EncodeVarintError Nat × List Nat :=
  encode_varint_go x 0 buf

/-- The loop of `decode_varint` from `src/utils.rs`: state `(x, s, i)`,
reading `buf[i]` each round.  All `u64` arithmetic keeps an explicit
`% 2 ^ 64`. -/
def decode_varint_go (buf : List Nat) (x s i : Nat) :
    Except DecodeVarintError (Nat × Nat) :=
  if i = 10 then .error .Overflow
  else if h : i ≥ buf.length then .error .NotEnoughBytes
  else
    let b := buf.getD i 0
    if b < 0x80 then
      if i = 10 - 1 ∧ b > 1 then .error .Overflow
      else .ok (i + 1, x ||| (b <<< s) % 2 ^ 64)
    else decode_varint_go buf (x ||| ((b % 128) <<< s) % 2 ^ 64) (s + 7) (i + 1)
termination_by buf.length - i
decreasing_by omega

/-- `decode_varint` from `src/utils.rs`. -/
def decode_varint (buf : List Nat) : Except DecodeVarintError (Nat × Nat) :=
  decode_varint_go buf 0 0 0

/-- The byte sequence `encode_varint` produces for `x`: least-significant
7-bit group first, continuation flag on every byte but the last. -/
def varintBytes (x : Nat) : List Nat :=
  if x ≥ 0x80 then (x % 256 ||| 0x80) :: varintBytes (x >>> 7)
  else [x % 256]
termination_by x
decreasing_by
  exact Nat.shiftRight_eq_div_pow x 7 ▸ Nat.div_lt_self (by omega) (by norm_num)

/-! ### Length-delimited framing codec, `src/impls.rs` -/

/-- `encoded_bytes_len` from `src/impls.rs`: `MESSAGE_SIZE_LEN + src.len()`. -/
def encoded_bytes_len (src : List Nat) : Nat := MESSAGE_SIZE_LEN + src.length

/-- `encode_bytes` from `src/impls.rs`: reject if the destination is
shorter than `4 + src.len()`, else write the 4-byte big-endian length
(`src.len() as u32`) and the payload, returning `4 + src.len()`.
The error type in the source is `()`, mapped by each caller to its
buffer-too-small variant. -/
def encode_bytes (src dst : List Nat) : Except Unit Nat × List Nat :=
  if dst.length < encoded_bytes_len src then (.error (), dst)
  else
    (.ok (MESSAGE_SIZE_LEN + src.length),
     writeSlice (writeSlice dst 0 (u32ToBe src.length)) MESSAGE_SIZE_LEN src)

/-- `decode_bytes` from `src/impls.rs`: needs at least 4 bytes, reads the
big-endian payload length, needs that many further bytes, and returns the
total consumed together with a copy of the payload.  The source's error
type is `()`, mapped by each caller to its not-enough-bytes variant. -/
def decode_bytes (src : List Nat) : Except Unit (Nat × List Nat) :=
  if src.length < MESSAGE_SIZE_LEN then .error ()
  else
    let data_len := readU32 (src.take MESSAGE_SIZE_LEN)
    if data_len > src.length - MESSAGE_SIZE_LEN then .error ()
    else .ok (MESSAGE_SIZE_LEN + data_len,
      (src.drop MESSAGE_SIZE_LEN).take data_len)

/-! ### Stream decoding, `src/lib.rs` and `src/impls.rs` -/

/-- Outcome of a stream decode: a value with the count the decoder
reported, an end-of-stream read failure, an invalid-data error (a wrapped
decode error), or a panic. -/
inductive ReaderOutcome (α : Type) : Type where
  | ok (consumed : Nat) (a : α)
  | eofError
  | invalidDataError
  | panic
deriving DecidableEq, Repr

/-- The default `Transformable::decode_from_reader` of `src/lib.rs`,
parameterised by the type's slice decoder.  It reads the 4-byte header,
interprets its value `msg_len` as the length of the whole buffer to
assemble (header included), reads `msg_len - MESSAGE_SIZE_LEN` further
bytes (with a fixed 256-byte stack buffer when `msg_len` is within
`MAX_INLINED_BYTES`, a heap buffer otherwise), and runs `decode` on the
assembled `msg_len`-byte buffer.  On the inline path the slice expression
`buf[MESSAGE_SIZE_LEN..msg_len]` panics when `msg_len < MESSAGE_SIZE_LEN`. -/
def decode_from_reader {ε α : Type} (decode : List Nat → Except ε (Nat × α))
    (stream : List Nat) : ReaderOutcome α :=
  if stream.length < MESSAGE_SIZE_LEN then .eofError
  else
    let msg_len := readU32 (stream.take MESSAGE_SIZE_LEN)
    if msg_len ≤ MAX_INLINED_BYTES then
      if msg_len < MESSAGE_SIZE_LEN then .panic
      else if stream.length < msg_len then .eofError
      else
        match decode (stream.take msg_len) with
        | .ok (n, a) => .ok n a
        | .error _ => .invalidDataError
    else
      if stream.length < msg_len then .eofError
      else
        match decode (stream.take msg_len) with
        | .ok (n, a) => .ok n a
        | .error _ => .invalidDataError

/-- `decode_bytes_from` from `src/impls.rs`: read the 4-byte header, then
exactly header-value-many further bytes into a fresh buffer, returning
`(MESSAGE_SIZE_LEN + len, buffer)`. -/
def decode_bytes_from (stream : List Nat) : ReaderOutcome (List Nat) :=
  if stream.length < MESSAGE_SIZE_LEN then .eofError
  else
    let len := readU32 (stream.take MESSAGE_SIZE_LEN)
    if stream.length - MESSAGE_SIZE_LEN < len then .eofError
    else .ok (MESSAGE_SIZE_LEN + len) ((stream.drop MESSAGE_SIZE_LEN).take len)

/-! ### Fixed-width integer codec, `src/impls/numbers.rs` (u64 instance) -/

/-- `NumberTransformError` from `src/impls/numbers.rs`. -/
inductive NumberTransformError : Type where
  | EncodeBufferTooSmall
  | NotEnoughBytes
deriving DecidableEq, Repr

namespace U64

/-- `u64::encoded_len`: `size_of::<u64>()`. -/
def encoded_len (_x : Nat) : Nat := 8

/-- `u64::encode` from the `impl_number_based_id!` macro: reject before
writing anything if the destination is shorter than `encoded_len`, else
copy the big-endian bytes and return the size. -/
def encode (x : Nat) (dst : List Nat) :
    Except NumberTransformError Nat × List Nat :=
  if dst.length < encoded_len x then (.error .EncodeBufferTooSmall, dst)
  else (.ok 8, writeSlice dst 0 (u64ToBe x))

/-- `u64::decode` from the `impl_number_based_id!` macro. -/
def decode (src : List Nat) : Except NumberTransformError (Nat × Nat) :=
  if src.length < 8 then .error .NotEnoughBytes
  else .ok (8, readU64 (src.take 8))

end U64

/-! ### Duration / SystemTime / Instant codecs, `src/impls/time.rs` -/

/-- `NANOS_PER_SEC` of `core::time::Duration`. -/
def NANOS_PER_SEC : Nat := 1000000000

/-- `DurationTransformError` from `src/impls/time.rs`. -/
inductive DurationTransformError : Type where
  | EncodeBufferTooSmall
  | Corrupted
deriving DecidableEq, Repr

/-- `encode_duration_unchecked` from `src/impls/time.rs`: 8 big-endian
seconds bytes followed by 4 big-endian subsecond-nanoseconds bytes. -/
def encode_duration_unchecked (secs nanos : Nat) : List Nat :=
  u64ToBe secs ++ u32ToBe nanos

/-- `core::time::Duration::new`: carry whole seconds out of the
nanosecond component; panics when the seconds addition overflows `u64`. -/
def durationNew (secs nanos : Nat) : Option (Nat × Nat) :=
  if secs + nanos / NANOS_PER_SEC < 2 ^ 64 then
    some (secs + nanos / NANOS_PER_SEC, nanos % NANOS_PER_SEC)
  else none

namespace Duration

/-- `Duration::decode` from `src/impls/time.rs`: at least 12 bytes or
`Corrupted`, then `decode_duration_unchecked` (which builds the value with
`Duration::new`). -/
def decode (src : List Nat) :
    RustOutcome DurationTransformError (Nat × Nat × Nat) :=
  if src.length < 12 then .err .Corrupted
  else
    match durationNew (readU64 (src.take 8)) (readU32 ((src.drop 8).take 4)) with
    | some (s, n) => .ok (12, s, n)
    | none => .panic

end Duration

/-- `SystemTimeTransformError` from `src/impls/time/system_time.rs`. -/
inductive SystemTimeTransformError : Type where
  | EncodeBufferTooSmall
  | Corrupted
  | InvalidSystemTime
deriving DecidableEq, Repr

namespace SystemTime

/-- A `std::time::SystemTime` value as signed nanoseconds relative to
`UNIX_EPOCH`; `duration_since(UNIX_EPOCH)` succeeds exactly when the value
is not negative. -/
def encoded_len (_t : Int) : Nat := 12

/-- `SystemTime::encode` from `src/impls/time/system_time.rs`: reject with
`EncodeBufferTooSmall` before any write when the destination is shorter
than `encoded_len`; then `duration_since(UNIX_EPOCH)` fails with
`InvalidSystemTime` for pre-epoch values (still before any write);
otherwise write the 12-byte duration.  The source returns `Ok(())`, not a
byte count. -/
def encode (t : Int) (dst : List Nat) :
    Except SystemTimeTransformError Unit × List Nat :=
  if dst.length < encoded_len t then (.error .EncodeBufferTooSmall, dst)
  else if t < 0 then (.error .InvalidSystemTime, dst)
  else
    (.ok (),
     writeSlice dst 0
       (encode_duration_unchecked (t.toNat / NANOS_PER_SEC) (t.toNat % NANOS_PER_SEC)))

end SystemTime

/-- `encode_instant_to_duration` from `src/impls/time/instant.rs`, with the
process-wide anchor pair made explicit: `systemNow` is the anchor's
wall-clock reading as nanoseconds since the epoch, `instantNow` the
anchor's monotonic reading, `instant` the value being encoded (both on the
monotonic clock's nanosecond scale).  The source adds the absolute
difference to the wall-clock anchor in both branches. -/
def encode_instant_to_duration (systemNow instantNow instant : Nat) : Nat :=
  if instant ≤ instantNow then systemNow + (instantNow - instant)
  else systemNow + (instant - instantNow)

/-- `decode_instant_from_duration` from `src/impls/time/instant.rs`, same
explicit anchor pair: apply the signed offset between the decoded absolute
timestamp and the wall-clock anchor to the monotonic anchor. -/
def decode_instant_from_duration (systemNow instantNow duration : Nat) : Nat :=
  if systemNow ≤ duration then instantNow + (duration - systemNow)
  else instantNow - (systemNow - duration)

/-! ### Tagged address codec, `src/impls/net/ip_addr.rs` -/

/-- `IpAddrTransformError` from `src/impls/net/ip_addr.rs`. -/
inductive IpAddrTransformError : Type where
  | EncodeBufferTooSmall
  | UnknownAddressFamily (tag : Nat)
  | Corrupted (msg : String)
deriving DecidableEq, Repr

/-- `std::net::IpAddr` by its octets. -/
inductive IpAddr : Type where
  | v4 (a b c d : Nat)
  | v6 (octets : List Nat)
deriving DecidableEq, Repr

namespace IpAddr

/-- `IpAddr::encoded_len`:
`1 + match{V4 => 4, V6 => 16} + size_of::<u16>()`. -/
def encoded_len : IpAddr → Nat
  | .v4 _ _ _ _ => 1 + 4 + 2
  | .v6 _ => 1 + 16 + 2

/-- `IpAddr::encode`: reject before writing when the destination is
shorter than `encoded_len`; else write the family tag at `dst[0]` and the
octets at `dst[1..]`, returning `encoded_len`. -/
def encode (v : IpAddr) (dst : List Nat) :
    Except IpAddrTransformError Nat × List Nat :=
  if dst.length < encoded_len v then (.error .EncodeBufferTooSmall, dst)
  else
    match v with
    | .v4 a b c d =>
        (.ok (encoded_len v), writeSlice (writeSlice dst 0 [4]) 1 [a, b, c, d])
    | .v6 octets =>
        (.ok (encoded_len v), writeSlice (writeSlice dst 0 [6]) 1 octets)

/-- `Transformable::encode_to_vec` applied to `IpAddr`: encode into a
zeroed buffer of `encoded_len` bytes. -/
def encode_to_vec (v : IpAddr) : List Nat :=
  (encode v (List.replicate (encoded_len v) 0)).2

/-- `IpAddr::decode`: the source reads `src[0]` before any length check,
panicking on an empty source; tag 4 needs at least 7 total bytes (else
`Corrupted`) and consumes `MIN_ENCODED_LEN = 5`; tag 6 needs at least 19
bytes and consumes `V6_ENCODED_LEN = 17`; any other tag fails
`UnknownAddressFamily(tag)`. -/
def decode (src : List Nat) : RustOutcome IpAddrTransformError (Nat × IpAddr) :=
  if src.length = 0 then .panic
  else
    match src.getD 0 0 with
    | 4 =>
        if src.length < 7 then .err (.Corrupted "corrupted socket v4 address")
        else .ok (5, .v4 (src.getD 1 0) (src.getD 2 0) (src.getD 3 0) (src.getD 4 0))
    | 6 =>
        if src.length < 19 then .err (.Corrupted "corrupted socket v6 address")
        else .ok (17, .v6 ((src.drop 1).take 16))
    | t => .err (.UnknownAddressFamily t)

end IpAddr

/-! ### Socket address codec, `src/impls/net.rs` (SocketAddrV6 instance) -/

/-- `AddrTransformError` from `src/impls/net.rs`. -/
inductive AddrTransformError : Type where
  | EncodeBufferTooSmall
  | Corrupted
deriving DecidableEq, Repr

/-- `std::net::SocketAddrV6`: the 16 address octets, the port, and the
`flowinfo` / `scope_id` fields. -/
structure SocketAddrV6 : Type where
  octets : List Nat
  port : Nat
  flowinfo : Nat
  scope_id : Nat
deriving DecidableEq, Repr

namespace SocketAddrV6

/-- `SocketAddrV6::encoded_len`: `$addr_size + PORT_SIZE = 16 + 2`. -/
def encoded_len (_v : SocketAddrV6) : Nat := 18

/-- `SocketAddrV6::encode` from the `impl_socket_addr!` macro: reject
before writing when the destination is too short; else write the 16
address octets then the 2-byte big-endian port, returning 18.  The
`flowinfo` and `scope_id` fields are never written. -/
def encode (v : SocketAddrV6) (dst : List Nat) :
    Except AddrTransformError Nat × List Nat :=
  if dst.length < encoded_len v then (.error .EncodeBufferTooSmall, dst)
  else (.ok 18, writeSlice (writeSlice dst 0 v.octets) 16 (u16ToBe v.port))

/-- `Transformable::encode_to_vec` applied to `SocketAddrV6`. -/
def encode_to_vec (v : SocketAddrV6) : List Nat :=
  (encode v (List.replicate 18 0)).2

/-- `SocketAddrV6::decode` from the `impl_socket_addr!` macro: at least 18
bytes or `Corrupted`; then `FromIP::from(ip, port)` which is
`SocketAddrV6::new(ip, port, 0, 0)`, so the decoded `flowinfo` and
`scope_id` are always 0. -/
def decode (src : List Nat) : Except AddrTransformError (Nat × SocketAddrV6) :=
  if src.length < 18 then .error .Corrupted
  else .ok (18,
    SocketAddrV6.mk (src.take 16) (src.getD 16 0 * 256 + src.getD 17 0) 0 0)

end SocketAddrV6

/-! ### Infrastructure lemmas -/

theorem lor_one (x : Nat) : x ||| 1 = 2 * (x / 2) + 1 := by
  have h2 : (x ||| 1) % 2 = 1 := by
    simp [Nat.or_mod_two_eq_one]
  have hd : (x ||| 1) / 2 = x / 2 := by
    rw [Nat.or_div_two]
    norm_num
  omega

theorem log2_or_one {x : Nat} (hx : 1 ≤ x) : Nat.log2 (x ||| 1) = Nat.log2 x := by
  have h1 : x ||| 1 = 2 * (x / 2) + 1 := lor_one x
  have hx0 : x ≠ 0 := by omega
  have hne : x ||| 1 ≠ 0 := by omega
  apply Nat.le_antisymm
  · rw [← Nat.lt_succ_iff, Nat.log2_lt hne]
    have hlt : x < 2 ^ (Nat.log2 x + 1) := Nat.lt_log2_self
    have h2 : 2 ^ (Nat.log2 x + 1) = 2 * 2 ^ Nat.log2 x := by ring
    omega
  · rw [Nat.le_log2 hne]
    have := Nat.log2_self_le hx0
    omega

theorem log2_shiftRight7 {x : Nat} (hx : 2 ^ 7 ≤ x) :
    Nat.log2 (x >>> 7) = Nat.log2 x - 7 := by
  rw [Nat.shiftRight_eq_div_pow]
  have hx0 : x ≠ 0 := by
    intro h
    rw [h] at hx
    omega
  have h7 : 7 ≤ Nat.log2 x := (Nat.le_log2 hx0).2 hx
  have hne : x / 2 ^ 7 ≠ 0 := by
    have := Nat.div_pos hx (by norm_num)
    omega
  apply Nat.le_antisymm
  · rw [← Nat.lt_succ_iff, Nat.log2_lt hne,
      Nat.div_lt_iff_lt_mul (by norm_num : (0:Nat) < 2 ^ 7), ← pow_add]
    have : Nat.log2 x - 7 + 1 + 7 = Nat.log2 x + 1 := by omega
    rw [this]
    exact Nat.lt_log2_self
  · rw [Nat.le_log2 hne, Nat.le_div_iff_mul_le (by norm_num : (0:Nat) < 2 ^ 7),
      ← pow_add, Nat.sub_add_cancel h7]
    exact Nat.log2_self_le hx0

theorem shiftRight7_lt {x : Nat} (hx : 128 ≤ x) : x >>> 7 < x := by
  rw [Nat.shiftRight_eq_div_pow]
  exact Nat.div_lt_self (by omega) (by norm_num)

theorem length_varintBytes (x : Nat) :
    (varintBytes x).length = Nat.log2 (x ||| 1) / 7 + 1 := by
  induction x using Nat.strong_induction_on with
  | _ x ih =>
    rw [varintBytes]
    split
    · rename_i h
      have h128 : 128 ≤ x := h
      have hx1 : 1 ≤ x := by omega
      rw [List.length_cons, ih _ (shiftRight7_lt h128)]
      have hx7 : 1 ≤ x >>> 7 := by
        rw [Nat.shiftRight_eq_div_pow]
        exact Nat.div_pos h128 (by norm_num)
      rw [log2_or_one hx1, log2_or_one hx7, log2_shiftRight7 h128]
      have h7 : 7 ≤ Nat.log2 x := (Nat.le_log2 (by omega)).2 h128
      omega
    · rename_i h
      have hlt : Nat.log2 (x ||| 1) < 7 := by
        have h1 := lor_one x
        rw [Nat.log2_lt (by omega)]
        have : x < 128 := by omega
        omega
      simp only [List.length_singleton]
      omega

theorem encoded_len_varint_eq (x : Nat) (hx : x < 2 ^ 64) :
    encoded_len_varint x = Nat.log2 (x ||| 1) / 7 + 1 := by
  have hlt : x ||| 1 < 2 ^ 64 := Nat.or_lt_two_pow hx (by norm_num)
  have h1 := lor_one x
  have hne : x ||| 1 ≠ 0 := by omega
  have hL : Nat.log2 (x ||| 1) < 64 := (Nat.log2_lt hne).2 hlt
  have key : ∀ l < 64, ((64 - (l + 1) ^^^ 63) * 9 + 73) / 64 = l / 7 + 1 := by decide
  unfold encoded_len_varint leadingZeros64
  exact key _ hL

theorem writeSlice_zero (dst src : List Nat) :
    writeSlice dst 0 src = src ++ dst.drop src.length := by
  simp [writeSlice]

theorem drop_append_at (pre tail : List Nat) (k : Nat) :
    (pre ++ tail).drop (pre.length + k) = tail.drop k := by
  rw [← List.drop_drop, List.drop_left]

theorem writeSlice_at (pre tail src : List Nat) :
    writeSlice (pre ++ tail) pre.length src =
      pre ++ (src ++ tail.drop src.length) := by
  unfold writeSlice
  rw [List.take_left, drop_append_at, List.append_assoc]

theorem readU32_u32ToBe (n : Nat) (h : n < 2 ^ 32) : readU32 (u32ToBe n) = n := by
  simp only [readU32, u32ToBe, List.getD_cons_zero, List.getD_cons_succ,
    Nat.shiftRight_eq_div_pow]
  omega

theorem or_mul_two_pow {a b k : Nat} (ha : a < 2 ^ k) :
    a ||| b * 2 ^ k = a + b * 2 ^ k := by
  calc a ||| b * 2 ^ k = b * 2 ^ k ||| a := Nat.or_comm _ _
    _ = 2 ^ k * b ||| a := by rw [Nat.mul_comm]
    _ = 2 ^ k * b + a := (Nat.mul_add_lt_is_or ha b).symm
    _ = a + b * 2 ^ k := by ring

set_option maxRecDepth 4096 in
theorem lor_byte : ∀ y < 256, y ||| 128 = y % 128 + 128 := by decide

theorem varintBytes_cont {x : Nat} (h : 0x80 ≤ x) :
    varintBytes x = (x % 256 ||| 0x80) :: varintBytes (x >>> 7) := by
  rw [varintBytes, if_pos h]

theorem varintBytes_last {x : Nat} (h : x < 0x80) : varintBytes x = [x % 256] := by
  rw [varintBytes, if_neg (by omega)]

theorem encode_varint_go_spec (x : Nat) : ∀ (i : Nat) (buf : List Nat),
    i + (varintBytes x).length ≤ buf.length →
    encode_varint_go x i buf =
      (.ok (i + (varintBytes x).length),
       buf.take i ++ varintBytes x ++ buf.drop (i + (varintBytes x).length)) := by
  induction x using Nat.strong_induction_on with
  | _ x ih =>
    intro i buf hlen
    by_cases h : 0x80 ≤ x
    · rw [varintBytes_cont h] at hlen ⊢
      rw [List.length_cons] at hlen ⊢
      have hi : i < buf.length := by omega
      rw [encode_varint_go, if_pos h, if_neg (by omega)]
      have hrec := ih _ (shiftRight7_lt h) (i + 1) (buf.set i (x % 256 ||| 0x80))
        (by rw [List.length_set]; omega)
      rw [hrec]
      have hset := List.set_eq_take_cons_drop (x % 256 ||| 0x80) hi
      have htake : (buf.set i (x % 256 ||| 0x80)).take (i + 1) =
          buf.take i ++ [x % 256 ||| 0x80] := by
        rw [hset, List.append_cons, List.take_left']
        rw [List.length_append, List.length_take, List.length_singleton]
        omega
      have hdrop : (buf.set i (x % 256 ||| 0x80)).drop
          (i + 1 + (varintBytes (x >>> 7)).length) =
          buf.drop (i + 1 + (varintBytes (x >>> 7)).length) := by
        rw [List.drop_set, if_pos (by omega)]
      rw [htake, hdrop]
      have harith : i + 1 + (varintBytes (x >>> 7)).length =
          i + ((varintBytes (x >>> 7)).length + 1) := by omega
      rw [harith]
      simp [List.append_assoc]
    · rw [varintBytes_last (by omega)] at hlen ⊢
      rw [List.length_singleton] at hlen ⊢
      rw [encode_varint_go, if_neg h, if_pos (by omega)]
      rw [List.set_eq_take_cons_drop _ (by omega)]
      simp

theorem decode_varint_go_spec (x : Nat) : ∀ (i acc : Nat) (buf : List Nat),
    i ≤ 9 → x < 2 ^ (64 - 7 * i) → acc < 2 ^ (7 * i) →
    i + (varintBytes x).length ≤ buf.length →
    (∀ j, j < (varintBytes x).length →
      buf.getD (i + j) 0 = (varintBytes x).getD j 0) →
    decode_varint_go buf acc (7 * i) i =
      .ok (i + (varintBytes x).length, acc + x * 2 ^ (7 * i)) := by
  induction x using Nat.strong_induction_on with
  | _ x ih =>
    intro i acc buf hi hx hacc hlen hbytes
    by_cases h : 0x80 ≤ x
    · rw [varintBytes_cont h] at hlen hbytes ⊢
      rw [List.length_cons] at hlen ⊢
      have hb0 : buf.getD i 0 = x % 256 ||| 0x80 := by
        have := hbytes 0 (by rw [List.length_cons]; omega)
        simpa using this
      have hbval : x % 256 ||| 0x80 = x % 128 + 128 := by
        have h1 := lor_byte (x % 256) (Nat.mod_lt _ (by norm_num))
        have h2 : x % 256 % 128 = x % 128 :=
          Nat.mod_mod_of_dvd x (by norm_num)
        rw [h1, h2]
      have hi8 : i ≤ 8 := by
        by_contra hgt
        have h9 : i = 9 := by omega
        rw [h9] at hx
        norm_num at hx
        omega
      rw [decode_varint_go, if_neg (by omega), dif_neg (by omega)]
      simp only [hb0, hbval]
      rw [if_neg (by omega)]
      have hshift : (x % 128 + 128) % 128 = x % 128 := by omega
      have hpow : (7 : Nat) * i ≤ 56 := by omega
      have hsmall : x % 128 * 2 ^ (7 * i) < 2 ^ 64 := by
        have h1 : x % 128 < 2 ^ 7 := by norm_num; omega
        calc x % 128 * 2 ^ (7 * i) < 2 ^ 7 * 2 ^ (7 * i) :=
              (Nat.mul_lt_mul_right (Nat.two_pow_pos _)).mpr h1
          _ = 2 ^ (7 + 7 * i) := by rw [pow_add]
          _ ≤ 2 ^ 64 := Nat.pow_le_pow_right (by norm_num) (by omega)
      have hawrite : acc ||| ((((x % 128 + 128) % 128) <<< (7 * i)) % 2 ^ 64) =
          acc + x % 128 * 2 ^ (7 * i) := by
        rw [hshift, Nat.shiftLeft_eq, Nat.mod_eq_of_lt hsmall,
          or_mul_two_pow hacc]
      rw [hawrite]
      have hpow7 : (2 : Nat) ^ (7 * (i + 1)) = 2 ^ (7 * i) * 128 := by
        have : 7 * (i + 1) = 7 * i + 7 := by ring
        rw [this, pow_add]
        norm_num
      have hx7 : x >>> 7 < 2 ^ (64 - 7 * (i + 1)) := by
        rw [Nat.shiftRight_eq_div_pow]
        rw [Nat.div_lt_iff_lt_mul (by norm_num : (0:Nat) < 2 ^ 7), ← pow_add]
        have harith : 64 - 7 * (i + 1) + 7 = 64 - 7 * i := by omega
        rw [harith]
        exact hx
      have hacc7 : acc + x % 128 * 2 ^ (7 * i) < 2 ^ (7 * (i + 1)) := by
        rw [hpow7]
        have h1 : x % 128 < 128 := Nat.mod_lt x (by norm_num)
        have h2 : x % 128 * 2 ^ (7 * i) ≤ 127 * 2 ^ (7 * i) :=
          Nat.mul_le_mul_right _ (by omega)
        have h3 : (0:Nat) < 2 ^ (7 * i) := Nat.pos_pow_of_pos _ (by norm_num)
        omega
      have hrec := ih _ (shiftRight7_lt h) (i + 1) (acc + x % 128 * 2 ^ (7 * i))
        buf (by omega) hx7 hacc7 (by omega)
        (by
          intro j hj
          have := hbytes (j + 1) (by rw [List.length_cons]; omega)
          rw [List.getD_cons_succ] at this
          rw [← this]
          congr 1
          omega)
      have h7s : 7 * i + 7 = 7 * (i + 1) := by ring
      rw [h7s, hrec]
      have hxx : x % 128 + x / 128 * 128 = x := by omega
      have hsh : x >>> 7 = x / 128 := by
        rw [Nat.shiftRight_eq_div_pow]
      have hlen2 : i + 1 + (varintBytes (x >>> 7)).length =
          i + ((varintBytes (x >>> 7)).length + 1) := by omega
      have hval : acc + x % 128 * 2 ^ (7 * i) + (x >>> 7) * 2 ^ (7 * (i + 1)) =
          acc + x * 2 ^ (7 * i) := by
        rw [hsh, hpow7]
        calc acc + x % 128 * 2 ^ (7 * i) + x / 128 * (2 ^ (7 * i) * 128)
            = acc + (x % 128 + x / 128 * 128) * 2 ^ (7 * i) := by ring
          _ = acc + x * 2 ^ (7 * i) := by rw [hxx]
      rw [hlen2, hval]
    · rw [varintBytes_last (by omega)] at hlen hbytes ⊢
      rw [List.length_singleton] at hlen ⊢
      have hxx : x % 256 = x := Nat.mod_eq_of_lt (by omega)
      have hb0 : buf.getD i 0 = x := by
        have := hbytes 0 (by rw [List.length_singleton]; omega)
        simpa [hxx] using this
      rw [decode_varint_go, if_neg (by omega), dif_neg (by omega)]
      simp only [hb0]
      rw [if_pos (by omega), if_neg (by
        rintro ⟨h9, hb1⟩
        rw [show (10 : Nat) - 1 = 9 from rfl] at h9
        rw [h9] at hx
        norm_num at hx
        omega)]
      have hsmall : x * 2 ^ (7 * i) < 2 ^ 64 := by
        calc x * 2 ^ (7 * i) < 2 ^ (64 - 7 * i) * 2 ^ (7 * i) :=
              (Nat.mul_lt_mul_right (Nat.two_pow_pos _)).mpr hx
          _ = 2 ^ (64 - 7 * i + 7 * i) := by rw [pow_add]
          _ ≤ 2 ^ 64 := Nat.pow_le_pow_right (by norm_num) (by omega)
      rw [Nat.shiftLeft_eq, Nat.mod_eq_of_lt hsmall, or_mul_two_pow hacc]

/-! ### Claim theorems -/

/-- C5: the claim states `IpAddr::encoded_len` is 5 for an IPv4 address
(1 tag byte plus 4 octets, no port) and that `decode (encode v)` returns
`(encoded_len v, v)`.  On the code, `encoded_len` of the IPv4 loopback is
7 (the source adds `size_of::<u16>()` port bytes that the tagged format
does not contain), a 5-byte destination is rejected with
`EncodeBufferTooSmall`, `encode` reports 7 bytes written while writing
only the 5-byte tag-plus-octets prefix, and `decode (encode v)` consumes
5, not `encoded_len v = 7`. -/
theorem claim_C5 :
    IpAddr.encoded_len (.v4 127 0 0 1) = 7 ∧
    IpAddr.encode (.v4 127 0 0 1) (List.replicate 5 9) =
      (.error .EncodeBufferTooSmall, List.replicate 5 9) ∧
    IpAddr.encode_to_vec (.v4 127 0 0 1) = [4, 127, 0, 0, 1, 0, 0] ∧
    IpAddr.decode (IpAddr.encode_to_vec (.v4 127 0 0 1)) =
      .ok (5, .v4 127 0 0 1) ∧
    IpAddr.encoded_len (.v6 (List.replicate 15 0 ++ [1])) = 19 := by
  refine ⟨rfl, by decide, by decide, by decide, rfl⟩

/-- C6: the claim states that with tag 4 `IpAddr::decode` succeeds given
exactly 5 total bytes and fails `Corrupted` only below 5, and that tag 6
needs 17 bytes.  On the code, the 5-byte source `[4, 127, 0, 0, 1]` fails
`Corrupted` (the bound is 7), and a 17-byte tag-6 source also fails
`Corrupted` (the bound is 19); the unknown-tag behaviour itself holds. -/
theorem claim_C6 :
    IpAddr.decode [4, 127, 0, 0, 1] =
      .err (.Corrupted "corrupted socket v4 address") ∧
    IpAddr.decode [4, 127, 0, 0, 1, 0] =
      .err (.Corrupted "corrupted socket v4 address") ∧
    IpAddr.decode (6 :: List.replicate 16 0) =
      .err (.Corrupted "corrupted socket v6 address") ∧
    IpAddr.decode [5, 0, 0, 0, 0, 0, 0] = .err (.UnknownAddressFamily 5) ∧
    IpAddr.decode (List.replicate 7 4) = .ok (5, .v4 4 4 4 4) := by
  refine ⟨by decide, by decide, by decide, by decide, by decide⟩

/-- C7: the claim states encoding adds the signed offset
`t - mono_anchor` to the wall anchor (subtracting when `t` precedes the
anchor) and that decode recovers `t`.  On the code, with the anchor pair
`(wall = 1000, mono = 100)` (nanoseconds) and `t = 90`, encode produces
`1000 + 10 = 1010` instead of `1000 - 10 = 990` — the first branch of
`encode_instant_to_duration` adds the absolute difference — and decoding
`1010` yields `110 ≠ 90`, so the in-process round-trip fails for every
instant earlier than the anchor; for `t ≥ mono_anchor` both directions
agree and the round-trip holds. -/
theorem claim_C7 :
    encode_instant_to_duration 1000 100 90 = 1010 ∧
    decode_instant_from_duration 1000 100
      (encode_instant_to_duration 1000 100 90) = 110 ∧
    (110 : Nat) ≠ 90 ∧
    encode_instant_to_duration 1000 100 250 = 1150 ∧
    decode_instant_from_duration 1000 100
      (encode_instant_to_duration 1000 100 250) = 250 := by
  refine ⟨by decide, by decide, by decide, by decide, by decide⟩

/-- C8: the claim states the default `decode_from_reader` reads the
4-byte header and then exactly header-value-many further bytes before
delegating to `decode`.  On the code, the header value is treated as the
length of the whole assembled buffer: on a stream whose header says 8,
only 4 further bytes are read and `decode` receives the 8-byte buffer
`[0,0,0,8,1,2,3,4]` (the observing decoder below returns its input), while
`decode_bytes_from` — the convention the claim describes — consumes
`4 + 8 = 12` bytes; moreover a header value below 4 makes the default
method panic on the reversed slice `buf[4..msg_len]`. -/
theorem claim_C8 :
    decode_from_reader
        (fun buf => (Except.ok (buf.length, buf) : Except Unit (Nat × List Nat)))
        [0, 0, 0, 8, 1, 2, 3, 4, 5, 6, 7, 8] = .ok 8 [0, 0, 0, 8, 1, 2, 3, 4] ∧
    decode_bytes_from [0, 0, 0, 8, 1, 2, 3, 4, 5, 6, 7, 8] =
      .ok 12 [1, 2, 3, 4, 5, 6, 7, 8] ∧
    decode_from_reader
        (fun buf => (Except.ok (buf.length, buf) : Except Unit (Nat × List Nat)))
        [0, 0, 0, 2, 9, 9] = .panic := by
  refine ⟨by decide, by decide, by decide⟩

/-- C9: the claim states that every implemented decode returns a
decode-side error value on a too-short source, in particular
`IpAddr::decode` on the empty source.  On the code, `IpAddr::decode`
evaluates `src[0]` before any length check and panics on the empty
source, while the other cited decoders (`decode_bytes`,
`Duration::decode`) do check first and return their error values. -/
theorem claim_C9 :
    IpAddr.decode [] = .panic ∧
    decode_bytes [] = .error () ∧
    Duration.decode [] = .err .Corrupted ∧
    Duration.decode (List.replicate 11 0) = .err .Corrupted := by
  refine ⟨by decide, by decide, by decide, by decide⟩

theorem decode_go_overflow (buf : List Nat) :
    ∀ (k i acc s : Nat), buf.length - i ≤ k → i ≤ 10 → i ≤ buf.length →
    (decode_varint_go buf acc s i = .error .Overflow ↔
      (10 ≤ buf.length ∧ ∀ j, i ≤ j → j < 10 → 128 ≤ buf.getD j 0) ∨
      (10 ≤ buf.length ∧ (∀ j, i ≤ j → j < 9 → 128 ≤ buf.getD j 0) ∧
        buf.getD 9 0 < 128 ∧ 1 < buf.getD 9 0)) := by
  intro k
  induction k with
  | zero =>
    intro i acc s hk hi hib
    have hieq : i = buf.length := by omega
    rw [decode_varint_go]
    by_cases h10 : i = 10
    · rw [if_pos h10]
      constructor
      · intro _
        exact Or.inl ⟨by omega, fun j hj1 hj2 => by omega⟩
      · intro _
        rfl
    · rw [if_neg h10, dif_pos (by omega)]
      constructor
      · intro hcontra
        simp at hcontra
      · rintro (⟨hlen, _⟩ | ⟨hlen, _, _, _⟩) <;> exact absurd hlen (by omega)
  | succ k ihk =>
    intro i acc s hk hi hib
    rw [decode_varint_go]
    by_cases h10 : i = 10
    · rw [if_pos h10]
      constructor
      · intro _
        exact Or.inl ⟨by omega, fun j hj1 hj2 => by omega⟩
      · intro _
        rfl
    · rw [if_neg h10]
      by_cases hib2 : i ≥ buf.length
      · rw [dif_pos hib2]
        constructor
        · intro hcontra
          simp at hcontra
        · rintro (⟨hlen, _⟩ | ⟨hlen, _, _, _⟩) <;> exact absurd hlen (by omega)
      · rw [dif_neg hib2]
        simp only []
        by_cases hb : buf.getD i 0 < 128
        · rw [if_pos hb]
          by_cases h9 : i = 10 - 1 ∧ buf.getD i 0 > 1
          · rw [if_pos h9]
            obtain ⟨h9a, h9b⟩ := h9
            rw [show (10 : Nat) - 1 = 9 from rfl] at h9a
            subst h9a
            constructor
            · intro _
              exact Or.inr ⟨by omega, fun j hj1 hj2 => by omega, by omega, by omega⟩
            · intro _
              rfl
          · rw [if_neg h9]
            constructor
            · intro hcontra
              simp at hcontra
            · rintro (⟨hlen, hall⟩ | ⟨hlen, hall, h9c, h9d⟩)
              · have := hall i (Nat.le_refl i) (by omega)
                omega
              · by_cases hi9 : i < 9
                · have := hall i (Nat.le_refl i) hi9
                  omega
                · have hieq : i = 9 := by omega
                  subst hieq
                  exact absurd ⟨by norm_num, h9d⟩ h9
        · rw [if_neg hb]
          rw [ihk (i + 1) _ _ (by omega) (by omega) (by omega)]
          constructor
          · rintro (⟨hlen, hall⟩ | ⟨hlen, hall, h9c, h9d⟩)
            · refine Or.inl ⟨hlen, fun j hj1 hj2 => ?_⟩
              by_cases hji : j = i
              · subst hji
                omega
              · exact hall j (by omega) hj2
            · refine Or.inr ⟨hlen, fun j hj1 hj2 => ?_, h9c, h9d⟩
              by_cases hji : j = i
              · subst hji
                omega
              · exact hall j (by omega) hj2
          · rintro (⟨hlen, hall⟩ | ⟨hlen, hall, h9c, h9d⟩)
            · exact Or.inl ⟨hlen, fun j hj1 hj2 => hall j (by omega) hj2⟩
            · exact Or.inr ⟨hlen, fun j hj1 hj2 => hall j (by omega) hj2, h9c, h9d⟩

theorem decode_go_neb (buf : List Nat) :
    ∀ (k i acc s : Nat), buf.length - i ≤ k → i ≤ 10 → i ≤ buf.length →
    (decode_varint_go buf acc s i = .error .NotEnoughBytes ↔
      buf.length < 10 ∧ ∀ j, i ≤ j → j < buf.length → 128 ≤ buf.getD j 0) := by
  intro k
  induction k with
  | zero =>
    intro i acc s hk hi hib
    have hieq : i = buf.length := by omega
    rw [decode_varint_go]
    by_cases h10 : i = 10
    · rw [if_pos h10]
      constructor
      · intro hcontra
        simp at hcontra
      · rintro ⟨hlen, _⟩
        exact absurd hlen (by omega)
    · rw [if_neg h10, dif_pos (by omega)]
      constructor
      · intro _
        exact ⟨by omega, fun j hj1 hj2 => by omega⟩
      · intro _
        rfl
  | succ k ihk =>
    intro i acc s hk hi hib
    rw [decode_varint_go]
    by_cases h10 : i = 10
    · rw [if_pos h10]
      constructor
      · intro hcontra
        simp at hcontra
      · rintro ⟨hlen, _⟩
        exact absurd hlen (by omega)
    · rw [if_neg h10]
      by_cases hib2 : i ≥ buf.length
      · rw [dif_pos hib2]
        constructor
        · intro _
          exact ⟨by omega, fun j hj1 hj2 => by omega⟩
        · intro _
          rfl
      · rw [dif_neg hib2]
        simp only []
        by_cases hb : buf.getD i 0 < 128
        · rw [if_pos hb]
          by_cases h9 : i = 10 - 1 ∧ buf.getD i 0 > 1
          · rw [if_pos h9]
            constructor
            · intro hcontra
              simp at hcontra
            · rintro ⟨hlen, hall⟩
              have := hall i (Nat.le_refl i) (by omega)
              omega
          · rw [if_neg h9]
            constructor
            · intro hcontra
              simp at hcontra
            · rintro ⟨hlen, hall⟩
              have := hall i (Nat.le_refl i) (by omega)
              omega
        · rw [if_neg hb]
          rw [ihk (i + 1) _ _ (by omega) (by omega) (by omega)]
          constructor
          · rintro ⟨hlen, hall⟩
            refine ⟨hlen, fun j hj1 hj2 => ?_⟩
            by_cases hji : j = i
            · subst hji
              omega
            · exact hall j (by omega) hj2
          · rintro ⟨hlen, hall⟩
            exact ⟨hlen, fun j hj1 hj2 => hall j (by omega) hj2⟩

theorem decode_go_take10 (buf : List Nat) :
    ∀ (k i acc s : Nat), buf.length - i ≤ k → i ≤ 10 →
    decode_varint_go buf acc s i = decode_varint_go (buf.take 10) acc s i := by
  have hlen10 : (buf.take 10).length = min 10 buf.length := List.length_take 10 buf
  intro k
  induction k with
  | zero =>
    intro i acc s hk hi
    rw [decode_varint_go]
    conv =>
      rhs
      rw [decode_varint_go]
    by_cases h10 : i = 10
    · rw [if_pos h10, if_pos h10]
    · rw [if_neg h10, if_neg h10, dif_pos (by omega), dif_pos (by omega)]
  | succ k ihk =>
    intro i acc s hk hi
    rw [decode_varint_go]
    conv =>
      rhs
      rw [decode_varint_go]
    by_cases h10 : i = 10
    · rw [if_pos h10, if_pos h10]
    · rw [if_neg h10, if_neg h10]
      by_cases hib : i ≥ buf.length
      · rw [dif_pos hib, dif_pos (by omega)]
      · rw [dif_neg hib, dif_neg (by omega)]
        simp only []
        have hgd : (buf.take 10).getD i 0 = buf.getD i 0 := by
          rw [List.getD_eq_getElem?_getD, List.getD_eq_getElem?_getD,
            List.getElem?_take_of_lt (by omega)]
        rw [hgd]
        by_cases hb : buf.getD i 0 < 128
        · rw [if_pos hb, if_pos hb]
        · rw [if_neg hb, if_neg hb]
          exact ihk (i + 1) _ _ (by omega) (by omega)

/-- C4: `decode_varint` inspects at most the first ten bytes of its
source; it fails `Overflow` exactly when the first ten bytes all carry the
continuation flag, or the first nine carry it and the tenth terminates
with value bits exceeding 1; and it fails `NotEnoughBytes` exactly when
the source is shorter than ten bytes and ends before any terminating
(flag-clear) byte. -/
theorem claim_C4 (buf : List Nat) :
    (decode_varint buf = .error .Overflow ↔
      (10 ≤ buf.length ∧ ∀ j, j < 10 → 128 ≤ buf.getD j 0) ∨
      (10 ≤ buf.length ∧ (∀ j, j < 9 → 128 ≤ buf.getD j 0) ∧
        buf.getD 9 0 < 128 ∧ 1 < buf.getD 9 0)) ∧
    (decode_varint buf = .error .NotEnoughBytes ↔
      buf.length < 10 ∧ ∀ j, j < buf.length → 128 ≤ buf.getD j 0) ∧
    decode_varint buf = decode_varint (buf.take 10) := by
  refine ⟨?_, ?_, ?_⟩
  · rw [decode_varint,
      decode_go_overflow buf buf.length 0 0 0 (by omega) (by omega) (by omega)]
    constructor
    · rintro (⟨h1, h2⟩ | ⟨h1, h2, h3, h4⟩)
      · exact Or.inl ⟨h1, fun j hj => h2 j (Nat.zero_le j) hj⟩
      · exact Or.inr ⟨h1, fun j hj => h2 j (Nat.zero_le j) hj, h3, h4⟩
    · rintro (⟨h1, h2⟩ | ⟨h1, h2, h3, h4⟩)
      · exact Or.inl ⟨h1, fun j _ hj => h2 j hj⟩
      · exact Or.inr ⟨h1, fun j _ hj => h2 j hj, h3, h4⟩
  · rw [decode_varint,
      decode_go_neb buf buf.length 0 0 0 (by omega) (by omega) (by omega)]
    constructor
    · rintro ⟨h1, h2⟩
      exact ⟨h1, fun j hj => h2 j (Nat.zero_le j) hj⟩
    · rintro ⟨h1, h2⟩
      exact ⟨h1, fun j _ hj => h2 j hj⟩
  · rw [decode_varint, decode_varint,
      decode_go_take10 buf buf.length 0 0 0 (by omega) (by omega)]

/-- C3: for every `u64` value, `encoded_len_varint x` equals the ceiling
of `bitlen (x ||| 1) / 7` (where `bitlen y = Nat.log2 y + 1`), giving 1
for 0 and 127, 2 for 128, and always between 1 and 10; `encode_varint`
on any buffer of at least that many bytes succeeds, writing exactly
`encoded_len_varint x` bytes (the sequence `varintBytes x`) and leaving
the rest of the buffer untouched; `decode_varint` on those bytes (with
anything following) returns `(encoded_len_varint x, x)`; 300 encodes to
`[0xAC, 0x02]`, and `u64::MAX` encodes to a 10-byte sequence whose last
byte is 1. -/
theorem claim_C3 (x : Nat) (hx : x < 2 ^ 64) (buf rest : List Nat) :
    encoded_len_varint x = (Nat.log2 (x ||| 1) + 1 + 6) / 7 ∧
    (1 ≤ encoded_len_varint x ∧ encoded_len_varint x ≤ 10) ∧
    (encoded_len_varint 0 = 1 ∧ encoded_len_varint 127 = 1 ∧
      encoded_len_varint 128 = 2) ∧
    (encoded_len_varint x ≤ buf.length →
      encode_varint x buf =
        (.ok (encoded_len_varint x),
         varintBytes x ++ buf.drop (encoded_len_varint x))) ∧
    decode_varint (varintBytes x ++ rest) = .ok (encoded_len_varint x, x) ∧
    (varintBytes 300 = [0xAC, 0x02] ∧
      decode_varint [0xAC, 0x02] = .ok (2, 300)) ∧
    ((varintBytes (2 ^ 64 - 1)).length = 10 ∧
      (varintBytes (2 ^ 64 - 1)).getLast? = some 1) := by
  have hlt : x ||| 1 < 2 ^ 64 := Nat.or_lt_two_pow hx (by norm_num)
  have h1 := lor_one x
  have hne : x ||| 1 ≠ 0 := by omega
  have hL : Nat.log2 (x ||| 1) < 64 := (Nat.log2_lt hne).2 hlt
  have helv := encoded_len_varint_eq x hx
  have hvb := length_varintBytes x
  have hlen_eq : (varintBytes x).length = encoded_len_varint x := by
    rw [hvb, helv]
  refine ⟨by omega, by omega,
    ⟨by simp [encoded_len_varint, leadingZeros64, Nat.log2],
     by simp [encoded_len_varint, leadingZeros64, Nat.log2],
     by simp [encoded_len_varint, leadingZeros64, Nat.log2]⟩, ?_, ?_,
    ⟨by simp [varintBytes], by simp [decode_varint, decode_varint_go]⟩,
    ⟨by simp [varintBytes], by simp [varintBytes]⟩⟩
  · intro hbuf
    have := encode_varint_go_spec x 0 buf (by omega)
    rw [encode_varint, this]
    rw [List.take_zero, List.nil_append, Nat.zero_add, hlen_eq]
  · have := decode_varint_go_spec x 0 0 (varintBytes x ++ rest)
      (by omega) (by simpa using hx) (by norm_num)
      (by rw [List.length_append]; omega)
      (by
        intro j hj
        rw [Nat.zero_add]
        exact List.getD_append _ _ _ _ hj)
    rw [decode_varint]
    rw [show (7 : Nat) * 0 = 0 from rfl] at this
    rw [this, Nat.zero_add, hlen_eq]
    norm_num

/-- C3 (witness): the varint codec at `x = 300` with a 3-byte buffer. -/
theorem claim_C3_witness :
    encode_varint 300 [0, 0, 0] =
      (.ok (encoded_len_varint 300),
       varintBytes 300 ++ [0, 0, 0].drop (encoded_len_varint 300)) ∧
    decode_varint (varintBytes 300 ++ [9]) = .ok (encoded_len_varint 300, 300) := by
  have h := claim_C3 300 (by norm_num) [0, 0, 0] [9]
  exact ⟨h.2.2.2.1 (by simp [encoded_len_varint, leadingZeros64, Nat.log2]),
    h.2.2.2.2.1⟩

/-- C1 (counterexample): the claim states encode succeeds whenever the
destination is at least `encoded_len` bytes.  A pre-epoch `SystemTime`
(1 nanosecond before `UNIX_EPOCH`) with an exactly `encoded_len`-sized
destination fails with `InvalidSystemTime` (and writes nothing). -/
theorem claim_C1_counterexample :
    (List.replicate 12 0).length = SystemTime.encoded_len (-1) ∧
    SystemTime.encode (-1) (List.replicate 12 0) =
      (.error .InvalidSystemTime, List.replicate 12 0) := by
  refine ⟨by decide, by decide⟩

/-- C1 (amended): encoding into a destination shorter than `encoded_len`
fails with `EncodeBufferTooSmall` and writes nothing observable, for the
fixed-width integer codec (u64 instance shown) and for `SystemTime`; a
destination of at least `encoded_len` bytes guarantees success for the
integer codec (returning the bytes written), while `SystemTime::encode`
additionally fails with `InvalidSystemTime` (still writing nothing) when
the value precedes `UNIX_EPOCH`, and on success returns `()` rather than
a byte count. -/
theorem claim_C1 :
    (∀ (x : Nat) (dst : List Nat),
        (dst.length < U64.encoded_len x →
          U64.encode x dst = (.error .EncodeBufferTooSmall, dst)) ∧
        (U64.encoded_len x ≤ dst.length →
          U64.encode x dst = (.ok 8, u64ToBe x ++ dst.drop 8))) ∧
    (∀ (t : Int) (dst : List Nat),
        (dst.length < SystemTime.encoded_len t →
          SystemTime.encode t dst = (.error .EncodeBufferTooSmall, dst)) ∧
        (SystemTime.encoded_len t ≤ dst.length → t < 0 →
          SystemTime.encode t dst = (.error .InvalidSystemTime, dst)) ∧
        (SystemTime.encoded_len t ≤ dst.length → 0 ≤ t →
          SystemTime.encode t dst =
            (.ok (), encode_duration_unchecked (t.toNat / NANOS_PER_SEC)
                (t.toNat % NANOS_PER_SEC) ++ dst.drop 12))) := by
  constructor
  · intro x dst
    constructor
    · intro h
      rw [U64.encode, if_pos h]
    · intro h
      rw [U64.encode, if_neg (by omega), writeSlice_zero]
      rfl
  · intro t dst
    refine ⟨fun h => ?_, fun h ht => ?_, fun h ht => ?_⟩
    · rw [SystemTime.encode, if_pos h]
    · rw [SystemTime.encode, if_neg (by omega), if_pos ht]
    · rw [SystemTime.encode, if_neg (by omega), if_neg (by omega), writeSlice_zero]
      rfl

/-- C1 (witness): the amended statement at concrete inputs. -/
theorem claim_C1_witness :
    U64.encode 258 (List.replicate 8 0) =
      (.ok 8, u64ToBe 258 ++ (List.replicate 8 0).drop 8) ∧
    U64.encode 258 [0, 0, 0] = (.error .EncodeBufferTooSmall, [0, 0, 0]) ∧
    SystemTime.encode (-5) (List.replicate 12 1) =
      (.error .InvalidSystemTime, List.replicate 12 1) ∧
    SystemTime.encode (3 * 1000000000 + 42) (List.replicate 12 1) =
      (.ok (), encode_duration_unchecked
        ((Int.toNat (3 * 1000000000 + 42)) / NANOS_PER_SEC)
        ((Int.toNat (3 * 1000000000 + 42)) % NANOS_PER_SEC) ++
        (List.replicate 12 1).drop 12) :=
  ⟨(claim_C1.1 258 (List.replicate 8 0)).2 (by decide),
   (claim_C1.1 258 [0, 0, 0]).1 (by decide),
   (claim_C1.2 (-5) (List.replicate 12 1)).2.1 (by decide) (by decide),
   (claim_C1.2 (3 * 1000000000 + 42) (List.replicate 12 1)).2.2
     (by decide) (by decide)⟩

/-- C2: for the length-delimited framing codec over a payload `src` of
`N = src.length` bytes (with `N` in `u32` range, the frame invariant):
`encode_bytes` rejects exactly when the destination is shorter than
`4 + N`, writing nothing in that case, and otherwise writes the 4-byte
big-endian length `N` followed by the payload and returns `4 + N`;
`decode_bytes` rejects a source shorter than 4 bytes, rejects when fewer
than the header value many bytes follow the header, and otherwise returns
the total consumed and a copy of the payload — in particular decoding an
encoded frame (with anything appended) returns `(4 + N, src)`. -/
theorem claim_C2 (src dst s : List Nat) (h32 : src.length < 2 ^ 32) :
    ((encode_bytes src dst).1 = .error () ↔ dst.length < 4 + src.length) ∧
    (dst.length < 4 + src.length → encode_bytes src dst = (.error (), dst)) ∧
    (4 + src.length ≤ dst.length →
      encode_bytes src dst =
        (.ok (4 + src.length),
         u32ToBe src.length ++ src ++ dst.drop (4 + src.length))) ∧
    (s.length < 4 → decode_bytes s = .error ()) ∧
    (4 ≤ s.length → s.length - 4 < readU32 (s.take 4) →
      decode_bytes s = .error ()) ∧
    (4 ≤ s.length → readU32 (s.take 4) ≤ s.length - 4 →
      decode_bytes s =
        .ok (4 + readU32 (s.take 4), (s.drop 4).take (readU32 (s.take 4)))) ∧
    (∀ rest, decode_bytes (u32ToBe src.length ++ src ++ rest) =
      .ok (4 + src.length, src)) := by
  have hwrite : ∀ d : List Nat, 4 + src.length ≤ d.length →
      writeSlice (writeSlice d 0 (u32ToBe src.length)) MESSAGE_SIZE_LEN src =
        u32ToBe src.length ++ src ++ d.drop (4 + src.length) := by
    intro d hd
    have h4 : (u32ToBe src.length).length = 4 := rfl
    have hgoal := writeSlice_at (u32ToBe src.length) (d.drop 4) src
    rw [h4] at hgoal
    rw [writeSlice_zero, h4, show MESSAGE_SIZE_LEN = 4 from rfl, hgoal,
      List.drop_drop, ← List.append_assoc]
  refine ⟨?_, ?_, ?_, ?_, ?_, ?_, ?_⟩
  · rw [encode_bytes]
    unfold encoded_bytes_len MESSAGE_SIZE_LEN
    split
    · rename_i h
      simpa using h
    · rename_i h
      simp only []
      constructor
      · intro hh
        cases hh
      · omega
  · intro h
    rw [encode_bytes, if_pos (by unfold encoded_bytes_len MESSAGE_SIZE_LEN; omega)]
  · intro h
    rw [encode_bytes, if_neg (by unfold encoded_bytes_len MESSAGE_SIZE_LEN; omega),
      hwrite dst h]
    rfl
  · intro h
    rw [decode_bytes, if_pos (by unfold MESSAGE_SIZE_LEN; omega)]
  · intro h4 hN
    rw [decode_bytes, if_neg (by unfold MESSAGE_SIZE_LEN; omega)]
    simp only []
    rw [if_pos (by unfold MESSAGE_SIZE_LEN; omega)]
  · intro h4 hN
    rw [decode_bytes, if_neg (by unfold MESSAGE_SIZE_LEN; omega)]
    simp only []
    rw [if_neg (by unfold MESSAGE_SIZE_LEN; omega)]
    rfl
  · intro rest
    have hlen : (u32ToBe src.length ++ src ++ rest).length =
        4 + src.length + rest.length := by
      simp [u32ToBe]
      omega
    have htake : (u32ToBe src.length ++ src ++ rest).take 4 = u32ToBe src.length := by
      rw [List.append_assoc]
      exact List.take_left' rfl
    have hread : readU32 ((u32ToBe src.length ++ src ++ rest).take 4) = src.length := by
      rw [htake, readU32_u32ToBe _ h32]
    have hdrop : (u32ToBe src.length ++ src ++ rest).drop 4 = src ++ rest := by
      rw [List.append_assoc]
      exact List.drop_left' rfl
    rw [decode_bytes, if_neg (by unfold MESSAGE_SIZE_LEN; omega)]
    simp only []
    rw [show MESSAGE_SIZE_LEN = 4 from rfl, hread,
      if_neg (by omega), hdrop, List.take_left]

/-- C2 (witness): the framing codec at concrete inputs. -/
theorem claim_C2_witness :
    encode_bytes [1, 2, 3] (List.replicate 7 9) =
      (.ok 7, u32ToBe 3 ++ [1, 2, 3] ++ (List.replicate 7 9).drop 7) ∧
    encode_bytes [1, 2, 3] (List.replicate 6 9) =
      (.error (), List.replicate 6 9) ∧
    decode_bytes [0, 0, 0] = .error () ∧
    decode_bytes [0, 0, 0, 10, 1, 2] = .error () ∧
    decode_bytes (u32ToBe 3 ++ [1, 2, 3] ++ [7, 7]) = .ok (7, [1, 2, 3]) := by
  have h := claim_C2 [1, 2, 3] (List.replicate 7 9) [0, 0, 0] (by decide)
  have h2 := claim_C2 [1, 2, 3] (List.replicate 6 9) [0, 0, 0, 10, 1, 2] (by decide)
  exact ⟨h.2.2.1 (by decide), h2.2.1 (by decide), h.2.2.2.1 (by decide),
    h2.2.2.2.2.1 (by decide) (by decide), h.2.2.2.2.2.2 [7, 7]⟩

/-- C10: `SocketAddrV6::encode` emits exactly the 16 address octets
followed by the 2-byte big-endian port (18 bytes), independently of the
`flowinfo` and `scope_id` fields; `decode` always rebuilds the value with
`flowinfo = 0` and `scope_id = 0`; hence the round-trip agrees with the
input on address and port and zeroes the other two fields. -/
theorem claim_C10 (v : SocketAddrV6) (dst : List Nat)
    (hoct : v.octets.length = 16) (hport : v.port < 2 ^ 16) :
    SocketAddrV6.encoded_len v = 18 ∧
    (18 ≤ dst.length → SocketAddrV6.encode v dst =
      (.ok 18, v.octets ++ u16ToBe v.port ++ dst.drop 18)) ∧
    (∀ f s, SocketAddrV6.encode (SocketAddrV6.mk v.octets v.port f s) dst =
      SocketAddrV6.encode v dst) ∧
    SocketAddrV6.decode (SocketAddrV6.encode_to_vec v) =
      .ok (18, SocketAddrV6.mk v.octets v.port 0 0) := by
  have hu16 : (u16ToBe v.port).length = 2 := rfl
  have hencode : ∀ d : List Nat, 18 ≤ d.length →
      SocketAddrV6.encode v d =
        (.ok 18, v.octets ++ u16ToBe v.port ++ d.drop 18) := by
    intro d hd
    rw [SocketAddrV6.encode, if_neg (by rw [SocketAddrV6.encoded_len]; omega),
      writeSlice_zero, hoct]
    have := writeSlice_at v.octets (d.drop 16) (u16ToBe v.port)
    rw [hoct] at this
    rw [this, hu16, List.drop_drop]
    norm_num
  refine ⟨rfl, hencode dst, ?_, ?_⟩
  · intro f s
    rfl
  · have hv : SocketAddrV6.encode_to_vec v = v.octets ++ u16ToBe v.port := by
      rw [SocketAddrV6.encode_to_vec, hencode (List.replicate 18 0) (by simp)]
      simp
    rw [hv, SocketAddrV6.decode,
      if_neg (by simp [u16ToBe, hoct])]
    have htake : (v.octets ++ u16ToBe v.port).take 16 = v.octets :=
      List.take_left' hoct
    have hget16 : (v.octets ++ u16ToBe v.port).getD 16 0 = v.port >>> 8 % 256 := by
      rw [List.getD_append_right _ _ _ _ (by omega), hoct]
      rfl
    have hget17 : (v.octets ++ u16ToBe v.port).getD 17 0 = v.port % 256 := by
      rw [List.getD_append_right _ _ _ _ (by omega), hoct]
      rfl
    rw [htake, hget16, hget17]
    have hp : v.port >>> 8 % 256 * 256 + v.port % 256 = v.port := by
      rw [Nat.shiftRight_eq_div_pow]
      omega
    rw [hp]

/-- C10 (witness): the IPv6 loopback with port 8080 and nonzero
`flowinfo` / `scope_id` at concrete inputs. -/
theorem claim_C10_witness :
    SocketAddrV6.decode (SocketAddrV6.encode_to_vec
        (SocketAddrV6.mk (List.replicate 15 0 ++ [1]) 8080 7 9)) =
      .ok (18, SocketAddrV6.mk (List.replicate 15 0 ++ [1]) 8080 0 0) ∧
    SocketAddrV6.encode (SocketAddrV6.mk (List.replicate 15 0 ++ [1]) 8080 7 9)
        (List.replicate 18 3) =
      (.ok 18, (List.replicate 15 0 ++ [1]) ++ u16ToBe 8080 ++
        (List.replicate 18 3).drop 18) := by
  have h := claim_C10 (SocketAddrV6.mk (List.replicate 15 0 ++ [1]) 8080 7 9)
    (List.replicate 18 3) (by decide) (by decide)
  exact ⟨h.2.2.2, h.2.1 (by decide)⟩

end Transformable
